import Mathlib

/-!
Verification of the poker training engine (backend/app): card model,
hand evaluator, starting-hand classifier, question generator and
progression engine, shallowly embedded from the Python source.

Machine integers are modelled as `Nat`/`Int`/`ℚ` (Python integers are
unbounded; the float accuracy is modelled as the exact rational it
approximates).  Fallible Python code (raised exceptions) is modelled with
`Except String`.  Randomness is modelled by passing the drawn choices as
explicit arguments.  String handling is modelled on ASCII data
(`List Char`), which covers the whole card-notation alphabet.
-/

namespace PokerApp

/-- Card suits (card.py, class Suit). -/
inductive Suit where
  | hearts
  | diamonds
  | clubs
  | spades
deriving DecidableEq, Repr

/-- Suit.letter (card.py lines 28-37). -/
def Suit.letter : Suit → Char
  | .hearts => 'h'
  | .diamonds => 'd'
  | .clubs => 'c'
  | .spades => 's'

/-- Suit.from_letter (card.py lines 39-43): dictionary lookup after
lowercasing; a missing key raises (KeyError). -/
def suitFromLetter (c : Char) : Except String Suit :=
  if c.toLower == 'h' then .ok .hearts
  else if c.toLower == 'd' then .ok .diamonds
  else if c.toLower == 'c' then .ok .clubs
  else if c.toLower == 's' then .ok .spades
  else .error "KeyError: suit"

/-- A playing card: a rank value (the IntEnum value 2..14, 14 = Ace) and a
suit (card.py, class Card). -/
structure Card where
  rank : Nat
  suit : Suit
deriving DecidableEq, Repr

/-- Rank construction `Rank(n)` on the IntEnum (card.py lines 46-61):
succeeds exactly for the member values 2..14, otherwise raises ValueError. -/
def mkRank (n : Nat) : Except String Nat :=
  if 2 ≤ n && n ≤ 14 then .ok n else .error "ValueError: invalid Rank"

/-- Rank.symbol (card.py lines 63-69): `str(value)` for values up to ten —
so ten renders as the two-character string "10" — and J/Q/K/A above. -/
def rankSymbol (r : Nat) : String :=
  if r ≤ 10 then toString r
  else if r = 11 then "J"
  else if r = 12 then "Q"
  else if r = 13 then "K"
  else "A"

/-- str.isdigit for ASCII character data: nonempty and all digits. -/
def isDigitStr (s : List Char) : Bool :=
  !s.isEmpty && s.all (fun c => '0' ≤ c && c ≤ '9')

/-- int(s) on a decimal digit string. -/
def digitsToNat (s : List Char) : Nat :=
  s.foldl (fun acc c => acc * 10 + (c.toNat - '0'.toNat)) 0

/-- Rank.from_symbol (card.py lines 71-84): uppercase the symbol; an
all-digit symbol goes through `Rank(int(symbol))` (ValueError outside
2..14); otherwise a T/J/Q/K/A dictionary lookup (KeyError on a miss). -/
def rankFromSymbol (s : List Char) : Except String Nat :=
  let u := s.map Char.toUpper
  if isDigitStr u then
    mkRank (digitsToNat u)
  else
    if u == ['T'] then .ok 10
    else if u == ['J'] then .ok 11
    else if u == ['Q'] then .ok 12
    else if u == ['K'] then .ok 13
    else if u == ['A'] then .ok 14
    else .error "KeyError: rank"

/-- Card.from_string (card.py lines 106-113): reject strings shorter than
two characters, then parse `s[:-1]` as the rank and `s[-1]` as the suit. -/
def cardFromString (s : List Char) : Except String Card :=
  if s.length < 2 then .error "ValueError: invalid card"
  else
    match rankFromSymbol s.dropLast with
    | .error e => .error e
    | .ok r =>
      match suitFromLetter (s.getLastD ' ') with
      | .error e => .error e
      | .ok st => .ok ⟨r, st⟩

/-- The card-notation grammar of spec §6, written from the spec's words:
rank token one of 2..9, "10", J, Q, K, A (ten spelled "10", not "T"),
followed by a suit letter h/d/c/s. -/
def specRankTokens : List (List Char) :=
  [['2'], ['3'], ['4'], ['5'], ['6'], ['7'], ['8'], ['9'],
   ['1', '0'], ['J'], ['Q'], ['K'], ['A']]

/-- Decidable membership in the spec §6 grammar. -/
def specGrammar (s : List Char) : Bool :=
  specRankTokens.any fun rt =>
    (['h', 'd', 'c', 's'] : List Char).any fun st => s == rt ++ [st]

/-- The language Card.from_string actually accepts (the amended grammar):
at least two characters, the last a suit letter in either case, and the
uppercased rank part either an all-digit string whose value lies in 2..14
or one of the letters T, J, Q, K, A. -/
def extGrammar (s : List Char) : Bool :=
  decide (2 ≤ s.length) &&
  (let rk := s.dropLast.map Char.toUpper
   (isDigitStr rk && decide (2 ≤ digitsToNat rk) && decide (digitsToNat rk ≤ 14)) ||
   (!isDigitStr rk &&
     (rk == ['T'] || rk == ['J'] || rk == ['Q'] || rk == ['K'] || rk == ['A']))) &&
  (['h', 'd', 'c', 's'] : List Char).contains (s.getLastD ' ').toLower

/-- Starting-hand strength categories (starting_hands.py lines 11-18). -/
inductive HandCategory where
  | weak
  | marginal
  | playable
  | strong
  | premium
deriving DecidableEq, Repr

/-- IntEnum values of the categories (starting_hands.py lines 11-18). -/
def HandCategory.val : HandCategory → Nat
  | .weak => 0
  | .marginal => 1
  | .playable => 2
  | .strong => 3
  | .premium => 4

/-- A starting hand: higher rank symbol first, then the lower, plus
suitedness (starting_hands.py lines 21-27). -/
structure StartingHand where
  card1 : String
  card2 : String
  suited : Bool
deriving DecidableEq, Repr

/-- The StartingHand notational key (starting_hands.py lines 29-35):
card1 ++ card2 for pairs, else an s/o suffix. -/
def StartingHand.notat (h : StartingHand) : String :=
  if h.card1 == h.card2 then h.card1 ++ h.card2
  else h.card1 ++ h.card2 ++ (if h.suited then "s" else "o")

/-- StartingHands.PREMIUM (starting_hands.py lines 51-56). -/
def PREMIUM : List String := ["AA", "KK", "QQ", "AKs"]

/-- StartingHands.STRONG (starting_hands.py lines 59-67). -/
def STRONG : List String := ["JJ", "TT", "AKo", "AQs", "AQo", "AJs", "KQs"]

/-- StartingHands.PLAYABLE (starting_hands.py lines 70-86). -/
def PLAYABLE : List String :=
  ["99", "88", "77", "ATs", "AJo", "KQo", "KJs", "KTs", "QJs", "QTs",
   "JTs", "T9s", "98s", "87s", "76s"]

/-- StartingHands.MARGINAL (starting_hands.py lines 89-118). -/
def MARGINAL : List String :=
  ["66", "55", "44", "33", "22", "A9s", "A8s", "A7s", "A6s", "A5s",
   "A4s", "A3s", "A2s", "ATo", "KJo", "KTo", "QJo", "QTo", "JTo",
   "K9s", "Q9s", "J9s", "T8s", "97s", "86s", "75s", "65s", "54s"]

/-- StartingHands.get_category (starting_hands.py lines 123-136):
membership of the notational key in the four fixed sets, else Weak. -/
def get_category (h : StartingHand) : HandCategory :=
  let n := h.notat
  if PREMIUM.contains n then .premium
  else if STRONG.contains n then .strong
  else if PLAYABLE.contains n then .playable
  else if MARGINAL.contains n then .marginal
  else .weak

/-- StartingHands.from_cards (starting_hands.py lines 150-159): order the
ranks high first and render each through Rank.symbol. -/
def from_cards (c1 c2 : Card) : StartingHand :=
  let r1 := if c1.rank < c2.rank then c2.rank else c1.rank
  let r2 := if c1.rank < c2.rank then c1.rank else c2.rank
  { card1 := rankSymbol r1
    card2 := rankSymbol r2
    suited := c1.suit == c2.suit }

/-- StartingHands.from_notation (starting_hands.py lines 161-170): a
two-character string is a pocket pair, a three-character string carries an
s/o suffix, anything else raises ValueError. -/
def fromNotat (n : String) : Except String StartingHand :=
  match n.data with
  | [a, b] => .ok ⟨String.mk [a], String.mk [b], false⟩
  | [a, b, c] => .ok ⟨String.mk [a], String.mk [b], c.toLower == 's'⟩
  | _ => .error "ValueError: invalid hand"

/-- StartingHands._notation_to_cards (starting_hands.py lines 220-233): the
shuffled suit list is modelled by its first two (distinct) entries s1 s2;
suited hands take s1 twice, offsuit hands take s1 and s2. -/
def notatToCards (h : StartingHand) (s1 s2 : Suit) : Except String (List Card) :=
  match rankFromSymbol h.card1.data with
  | .error e => .error e
  | .ok r1 =>
    match rankFromSymbol h.card2.data with
    | .error e => .error e
    | .ok r2 =>
      if h.suited then .ok [⟨r1, s1⟩, ⟨r2, s1⟩]
      else .ok [⟨r1, s1⟩, ⟨r2, s2⟩]

/-- Hand rankings from lowest to highest (hand_rankings.py lines 8-20). -/
inductive HandRank where
  | highCard
  | onePair
  | twoPair
  | threeOfAKind
  | straight
  | flush
  | fullHouse
  | fourOfAKind
  | straightFlush
  | royalFlush
deriving DecidableEq, Repr

/-- The IntEnum values 1..10 of HandRank (hand_rankings.py lines 8-20). -/
def HandRank.val : HandRank → Nat
  | .highCard => 1
  | .onePair => 2
  | .twoPair => 3
  | .threeOfAKind => 4
  | .straight => 5
  | .flush => 6
  | .fullHouse => 7
  | .fourOfAKind => 8
  | .straightFlush => 9
  | .royalFlush => 10

/-- Result of hand evaluation (hand_evaluator.py lines 12-33). -/
structure EvaluatedHand where
  rank : HandRank
  primary : List Nat
  kickers : List Nat
  cards : List Card
deriving DecidableEq, Repr

/-- EvaluatedHand.score (hand_evaluator.py lines 21-24): the comparison key
(rank value, primary values..., kickers...). -/
def EvaluatedHand.score (e : EvaluatedHand) : List Nat :=
  e.rank.val :: (e.primary ++ e.kickers)

/-- Python tuple comparison `<` on the score, lexicographic with a proper
prefix comparing below any extension (hand_evaluator.py lines 26-33). -/
def scoreLt : List Nat → List Nat → Bool
  | [], [] => false
  | [], _ :: _ => true
  | _ :: _, [] => false
  | a :: as, b :: bs => if a < b then true else if b < a then false else scoreLt as bs

/-- Stable insertion into a descending list, modelling one step of
`sorted(ranks, reverse=True)`. -/
def insertDesc (x : Nat) : List Nat → List Nat
  | [] => [x]
  | y :: ys => if y < x then x :: y :: ys else y :: insertDesc x ys

/-- `sorted(values, reverse=True)` on integers: on `Nat` every correct
descending sort produces the same list, here by insertion sort. -/
def sortDesc : List Nat → List Nat
  | [] => []
  | x :: xs => insertDesc x (sortDesc xs)

/-- Distinct elements in first-occurrence order: the key order of a Python
Counter / dict built by insertion (collections.Counter maintains it). -/
def distinctKeepFirst {α : Type} [DecidableEq α] (l : List α) : List α :=
  l.foldl (fun acc x => if acc.contains x then acc else acc ++ [x]) []

/-- HandEvaluator._check_straight (hand_evaluator.py lines 177-197):
five distinct ranks running down by four, or the wheel {14,5,4,3,2}
scored as five-high. -/
def check_straight (ranks : List Nat) : Bool × Nat :=
  let uniq := distinctKeepFirst (sortDesc ranks)
  if uniq.length ≠ 5 then (false, 0)
  else if uniq.headD 0 - uniq.getD 4 0 == 4 then (true, uniq.headD 0)
  else if uniq == [14, 5, 4, 3, 2] then (true, 5)
  else (false, 0)

/-- HandEvaluator._evaluate_five (hand_evaluator.py lines 69-175): the
priority-ordered classification of exactly five cards.  Counter queries
`c in counts.values()` and `[r for r, c in counts.items() if c = k][0]`
are modelled by counting over the descending rank list, whose
first-occurrence key order Counter preserves. -/
def evaluateFive (cards : List Card) : EvaluatedHand :=
  let ranks := sortDesc (cards.map Card.rank)
  let suits := cards.map Card.suit
  let uniq := distinctKeepFirst ranks
  let isFlush := (distinctKeepFirst suits).length == 1
  let st := check_straight ranks
  if isFlush && st.1 then
    if st.2 == 14 then ⟨.royalFlush, [14], [], cards⟩
    else ⟨.straightFlush, [st.2], [], cards⟩
  else if uniq.any (fun r => ranks.count r == 4) then
    let quad := (uniq.filter (fun r => ranks.count r == 4)).headD 0
    let kicker := (ranks.filter (fun r => r ≠ quad)).headD 0
    ⟨.fourOfAKind, [quad], [kicker], cards⟩
  else if (uniq.any (fun r => ranks.count r == 3)) && (uniq.any (fun r => ranks.count r == 2)) then
    let trips := (uniq.filter (fun r => ranks.count r == 3)).headD 0
    let pair := (uniq.filter (fun r => ranks.count r == 2)).headD 0
    ⟨.fullHouse, [trips, pair], [], cards⟩
  else if isFlush then ⟨.flush, ranks, [], cards⟩
  else if st.1 then ⟨.straight, [st.2], [], cards⟩
  else if uniq.any (fun r => ranks.count r == 3) then
    let trips := (uniq.filter (fun r => ranks.count r == 3)).headD 0
    let kickers := sortDesc (ranks.filter (fun r => r ≠ trips))
    ⟨.threeOfAKind, [trips], kickers, cards⟩
  else
    let pairs := uniq.filter (fun r => ranks.count r == 2)
    if pairs.length == 2 then
      let ps := sortDesc pairs
      let kicker := (ranks.filter (fun r => !ps.contains r)).headD 0
      ⟨.twoPair, ps, [kicker], cards⟩
    else if pairs.length == 1 then
      let pairRank := pairs.headD 0
      let kickers := sortDesc (ranks.filter (fun r => r ≠ pairRank))
      ⟨.onePair, [pairRank], kickers, cards⟩
    else ⟨.highCard, [ranks.headD 0], ranks.tail, cards⟩

/-- itertools.combinations order: all subsets containing the head first
(in the recursive enumeration order of the indices). -/
def combinations {α : Type} : Nat → List α → List (List α)
  | 0, _ => [[]]
  | _ + 1, [] => []
  | n + 1, x :: xs => (combinations n xs).map (x :: ·) ++ combinations (n + 1) xs

/-- The best-hand accumulator of HandEvaluator.evaluate (hand_evaluator.py
lines 61-65): `best_hand` starts as None and is replaced exactly when the
new hand compares strictly greater. -/
def pickMax {β : Type} (k : β → List Nat) (acc : Option β) (y : β) : Option β :=
  match acc with
  | none => some y
  | some b => if scoreLt (k b) (k y) then some y else some b

/-- HandEvaluator.evaluate (hand_evaluator.py lines 48-67): fewer than five
cards raises ValueError; exactly five classify directly; otherwise every
5-card combination is evaluated and the first maximum kept. -/
def evaluate (cards : List Card) : Except String EvaluatedHand :=
  if cards.length < 5 then .error "ValueError: need at least 5 cards"
  else if cards.length == 5 then .ok (evaluateFive cards)
  else
    match ((combinations 5 cards).map evaluateFive).foldl (pickMax EvaluatedHand.score) none with
    | some b => .ok b
    | none => .error "no combination"

/-- HandEvaluator.compare_hands (hand_evaluator.py lines 199-212): 1 when
the first hand evaluates greater, -1 when lower, 0 on equal scores. -/
def compare_hands (h1 h2 : List Card) : Except String Int :=
  match evaluate h1 with
  | .error e => .error e
  | .ok e1 =>
    match evaluate h2 with
    | .error e => .error e
    | .ok e2 =>
      if scoreLt e2.score e1.score then .ok 1
      else if scoreLt e1.score e2.score then .ok (-1)
      else .ok 0

/-- A per-(user,topic) KnowledgeScore record (models/training.py lines
38-53), counters and difficulty only; the timestamp is irrelevant to the
transition rules. -/
structure Score where
  totalAttempts : Nat
  correctAttempts : Nat
  currentStreak : Nat
  bestStreak : Nat
  currentDifficulty : Nat
deriving DecidableEq, Repr

/-- KnowledgeScore.accuracy (models/training.py lines 55-60): 0 with no
attempts, else correct/total*100; the float is modelled by the exact
rational. -/
def Score.accuracy (s : Score) : ℚ :=
  if s.totalAttempts = 0 then 0
  else (s.correctAttempts : ℚ) / (s.totalAttempts : ℚ) * 100

/-- The creation state of a score (progression.py lines 45-54): all
counters zero, difficulty 1. -/
def createScore : Score := ⟨0, 0, 0, 0, 1⟩

/-- ProgressionEngine._calculate_new_difficulty (progression.py lines
107-129) with the class thresholds 80 / 50 / 5 / 5 and bounds 1..5. -/
def calcNewDifficulty (s : Score) : Nat :=
  if s.totalAttempts < 5 then s.currentDifficulty
  else if s.accuracy ≥ 80 ∨ 5 ≤ s.currentStreak then min (s.currentDifficulty + 1) 5
  else if s.accuracy < 50 then max (s.currentDifficulty - 1) 1
  else s.currentDifficulty

/-- The score update of ProgressionEngine.record_attempt (progression.py
lines 86-100): counters and streaks first, then the difficulty from the
updated record. -/
def recordAttempt (correct : Bool) (s : Score) : Score :=
  let s1 :=
    if correct then
      let streak := s.currentStreak + 1
      { s with
          totalAttempts := s.totalAttempts + 1
          correctAttempts := s.correctAttempts + 1
          currentStreak := streak
          bestStreak := if s.bestStreak < streak then streak else s.bestStreak }
    else
      { s with totalAttempts := s.totalAttempts + 1, currentStreak := 0 }
  { s1 with currentDifficulty := calcNewDifficulty s1 }

/-- The KnowledgeScore data invariant of spec §3: correct attempts never
exceed total, the best streak dominates the current one, and the
difficulty stays in 1..5 (the counters are nonnegative by the `Nat`
representation). -/
abbrev ScoreInv (s : Score) : Prop :=
  s.correctAttempts ≤ s.totalAttempts ∧
  s.currentStreak ≤ s.bestStreak ∧
  1 ≤ s.currentDifficulty ∧ s.currentDifficulty ≤ 5

/-- A per-topic score row as read by get_recommended_topic: the topic name
with its counters. -/
structure TopicScore where
  topic : String
  totalAttempts : Nat
  correctAttempts : Nat
deriving DecidableEq, Repr

/-- KnowledgeScore.accuracy on a topic row (models/training.py lines
55-60). -/
def TopicScore.accuracy (s : TopicScore) : ℚ :=
  if s.totalAttempts = 0 then 0
  else (s.correctAttempts : ℚ) / (s.totalAttempts : ℚ) * 100

/-- ProgressionEngine.TOPICS (progression.py line 25), the fixed topic
order of the fallback. -/
def TOPICS : List String := ["hand_ranking", "which_wins", "starting_hand"]

/-- The weakest-topic loop state: (weakest, lowest_accuracy), starting at
(None, 100) (progression.py lines 145-151). -/
def weakestStep (st : Option String × ℚ) (s : TopicScore) : Option String × ℚ :=
  if 3 ≤ s.totalAttempts ∧ s.accuracy < st.2 then (some s.topic, s.accuracy) else st

/-- ProgressionEngine.get_recommended_topic (progression.py lines 131-164)
over the user's score rows in query order: empty history recommends
hand_ranking; else the weakest-topic loop; else the first topic of TOPICS
never practiced; else the stable sort by total attempts, whose head is the
first row with minimal attempts. -/
def getRecommendedTopic (scores : List TopicScore) : String :=
  if scores.isEmpty then "hand_ranking"
  else
    match (scores.foldl weakestStep (none, 100)).1 with
    | some t => t
    | none =>
      let practiced := scores.map TopicScore.topic
      match TOPICS.find? (fun t => !practiced.contains t) with
      | some t => t
      | none =>
        (scores.foldl
          (fun b s => if s.totalAttempts < b.totalAttempts then s else b)
          (scores.headD ⟨"", 0, 0⟩)).topic

/-- QuestionGenerator._make_royal_flush (question_generator.py lines
307-320): the randomly chosen suit is passed explicitly. -/
def makeRoyalFlush (suit : Suit) : List Card :=
  [⟨14, suit⟩, ⟨13, suit⟩, ⟨12, suit⟩, ⟨11, suit⟩, ⟨10, suit⟩]

/-- QuestionGenerator._make_straight_flush (question_generator.py lines
322-330): high_rank is the value random.randint(5, 9) returned; the five
ranks high..high-4 each go through the Rank constructor, which raises on a
value outside 2..14. -/
def makeStraightFlush (suit : Suit) (highRank : Nat) : Except String (List Card) :=
  match (List.range 5).mapM (fun i => mkRank (highRank - i)) with
  | .error e => .error e
  | .ok rs => .ok (rs.map (fun r => ⟨r, suit⟩))

/-- The retry loop of QuestionGenerator._generate_hand_of_rank
(question_generator.py lines 268-305) specialised to the STRAIGHT_FLUSH
target: `choices i` is the (suit, high_rank) pair the random calls of
attempt `i` produce; a constructor exception propagates out; a candidate
failing evaluator validation is retried; after the attempts run out the
fallback draw (deck.reset(); deck.draw(5), passed explicitly) is
returned. -/
def genSFLoop (choices : Nat → Suit × Nat) (fallbackDraw : List Card) :
    Nat → Nat → Except String (List Card)
  | 0, _ => .ok fallbackDraw
  | fuel + 1, i =>
    match makeStraightFlush (choices i).1 (choices i).2 with
    | .error e => .error e
    | .ok cards =>
      if cards.isEmpty then genSFLoop choices fallbackDraw fuel (i + 1)
      else
        match evaluate cards with
        | .error e => .error e
        | .ok ev =>
          if ev.rank = .straightFlush then .ok cards
          else genSFLoop choices fallbackDraw fuel (i + 1)

/-- QuestionGenerator._generate_hand_of_rank with target STRAIGHT_FLUSH
and max_attempts = 100 (question_generator.py lines 257-305). -/
def genHandOfRankSF (choices : Nat → Suit × Nat) (fallbackDraw : List Card) :
    Except String (List Card) :=
  genSFLoop choices fallbackDraw 100 0

/-- The retry loop of _generate_hand_of_rank specialised to the
ROYAL_FLUSH target: `choices i` is the suit attempt `i` draws.  The
exclude_cards argument is only ever removed from the deck
(question_generator.py lines 262-266, 272-275), and _make_royal_flush
never reads the deck, so the construction ignores it entirely. -/
def genRFLoop (choices : Nat → Suit) (excludeCards : List Card)
    (fallbackDraw : List Card) : Nat → Nat → Except String (List Card)
  | 0, _ => .ok fallbackDraw
  | fuel + 1, i =>
    let cards := makeRoyalFlush (choices i)
    if cards.isEmpty then genRFLoop choices excludeCards fallbackDraw fuel (i + 1)
    else
      match evaluate cards with
      | .error e => .error e
      | .ok ev =>
        if ev.rank = .royalFlush then .ok cards
        else genRFLoop choices excludeCards fallbackDraw fuel (i + 1)

/-- _generate_hand_of_rank with target ROYAL_FLUSH and max_attempts = 100
(question_generator.py lines 257-305). -/
def genHandOfRankRF (choices : Nat → Suit) (excludeCards : List Card)
    (fallbackDraw : List Card) : Except String (List Card) :=
  genRFLoop choices excludeCards fallbackDraw 100 0

/-- A concrete six-card input for the evaluator. -/
def sixCards : List Card :=
  [⟨14, .hearts⟩, ⟨13, .hearts⟩, ⟨12, .hearts⟩, ⟨11, .hearts⟩,
   ⟨10, .hearts⟩, ⟨2, .diamonds⟩]

/-- A concrete nine-card input, outside the spec's stated 5..7 domain. -/
def nineCards : List Card :=
  [⟨14, .hearts⟩, ⟨13, .hearts⟩, ⟨12, .hearts⟩, ⟨11, .hearts⟩,
   ⟨10, .hearts⟩, ⟨2, .diamonds⟩, ⟨3, .clubs⟩, ⟨7, .spades⟩, ⟨8, .spades⟩]

/-- A concrete five-card hand (a wheel straight). -/
def wheelHand : List Card :=
  [⟨14, .hearts⟩, ⟨2, .diamonds⟩, ⟨3, .clubs⟩, ⟨4, .spades⟩, ⟨5, .hearts⟩]

/-- A concrete five-card pair hand. -/
def pairHand : List Card :=
  [⟨14, .hearts⟩, ⟨14, .diamonds⟩, ⟨13, .clubs⟩, ⟨7, .spades⟩, ⟨2, .hearts⟩]

/-- A user state with a single perfect-accuracy topic: three attempts,
all correct, on which_wins. -/
def c9state : List TopicScore := [⟨"which_wins", 3, 3⟩]

/-- C1: the starting-hand classification is NOT consistent with canonical
Ten-card round trips.  "T9s" sits in the PLAYABLE set (and "TT" in
STRONG), and from_notation/_notation_to_cards realise it as the Ten and
Nine of hearts; but from_cards renders Ten through Rank.symbol as "10",
producing the key "109s" (resp. "1010"), absent from every set, so
get_category returns Weak instead of Playable (resp. Strong). -/
theorem c1_ten_round_trip_misclassified :
  fromNotat "T9s" = .ok ⟨"T", "9", true⟩ ∧
  get_category ⟨"T", "9", true⟩ = .playable ∧
  notatToCards ⟨"T", "9", true⟩ Suit.hearts Suit.diamonds =
    .ok [⟨10, Suit.hearts⟩, ⟨9, Suit.hearts⟩] ∧
  from_cards ⟨10, Suit.hearts⟩ ⟨9, Suit.hearts⟩ = ⟨"10", "9", true⟩ ∧
  get_category ⟨"10", "9", true⟩ = .weak ∧
  from_cards ⟨10, Suit.hearts⟩ ⟨10, Suit.spades⟩ = ⟨"10", "10", false⟩ ∧
  get_category ⟨"10", "10", false⟩ = .weak ∧
  STRONG.contains "TT" = true ∧ PLAYABLE.contains "T9s" = true :=
  ⟨rfl, rfl, rfl, rfl, rfl, rfl, rfl, rfl, rfl⟩

/-- C2: targeted synthesis of a STRAIGHT_FLUSH is not total.  When
random.randint(5, 9) returns 5, _make_straight_flush builds the rank run
5,4,3,2,1 and Rank(1) raises ValueError, which propagates out of
_generate_hand_of_rank on the first attempt; a high card choice of 9 (or
6..8) succeeds and validates. -/
theorem c2_straight_flush_five_high_raises :
  genHandOfRankSF (fun _ => (Suit.hearts, 5)) [] = .error "ValueError: invalid Rank" ∧
  mkRank 1 = .error "ValueError: invalid Rank" ∧
  genHandOfRankSF (fun _ => (Suit.hearts, 9)) [] =
    .ok [⟨9, Suit.hearts⟩, ⟨8, Suit.hearts⟩, ⟨7, Suit.hearts⟩,
         ⟨6, Suit.hearts⟩, ⟨5, Suit.hearts⟩] :=
  ⟨rfl, rfl, rfl⟩

/-- C7: the two hands of a which_wins question need not be disjoint.  The
per-rank constructors never read the deck, so excluding the first hand's
cards from the deck has no effect: with ROYAL_FLUSH as both targets (the
hard-difficulty same-rank case) and the suit choice falling on hearts both
times, the second synthesis returns exactly the first hand's five cards
even though they were excluded. -/
theorem c7_which_wins_hands_can_share_cards :
  genHandOfRankRF (fun _ => Suit.hearts) [] [] = .ok (makeRoyalFlush Suit.hearts) ∧
  genHandOfRankRF (fun _ => Suit.hearts) (makeRoyalFlush Suit.hearts) [] =
    .ok (makeRoyalFlush Suit.hearts) ∧
  (makeRoyalFlush Suit.hearts).any
    (fun c => (makeRoyalFlush Suit.hearts).contains c) = true :=
  ⟨rfl, rfl, rfl⟩

/-- C8 counterexample: "Th" lies outside the §6 grammar (ten must be
written "10"), yet Card.from_string parses it to the Ten of hearts instead
of failing. -/
theorem c8_counterexample_th_parses :
  cardFromString "Th".data = .ok ⟨10, Suit.hearts⟩ ∧
  specGrammar "Th".data = false :=
  ⟨rfl, rfl⟩

/-- C3 counterexample: a six-card input has 6 five-card subsets, not 15
(nor 21) as the claim's count asserts, while evaluate still succeeds on
it. -/
theorem c3_counterexample_six_card_subset_count :
  (combinations 5 sixCards).length = 6 ∧
  ¬((combinations 5 sixCards).length = 15 ∨ (combinations 5 sixCards).length = 21) ∧
  (evaluate sixCards).isOk = true := by
  decide

/-- C9 counterexample: with a single topic having 3 attempts all correct
(accuracy 100%), the weakest-topic loop never fires (its bound starts at
100 with a strict comparison), and the fallback returns the never-attempted
hand_ranking topic — not the unique topic with at least 3 attempts. -/
theorem c9_counterexample_perfect_topic_skipped :
  getRecommendedTopic c9state = "hand_ranking" ∧
  3 ≤ (c9state.headD ⟨"", 0, 0⟩).totalAttempts ∧
  (c9state.map TopicScore.topic).contains (getRecommendedTopic c9state) = false := by
  have h : weakestStep (none, 100) ⟨"which_wins", 3, 3⟩ = (none, 100) := by
    simp [weakestStep, TopicScore.accuracy]
  have hg : getRecommendedTopic c9state = "hand_ranking" := by
    simp [getRecommendedTopic, c9state, List.foldl, h, TOPICS]
  refine ⟨hg, by decide, ?_⟩
  rw [hg]
  decide


theorem scoreLt_irrefl (a : List Nat) : scoreLt a a = false := by
  induction a with
  | nil => rfl
  | cons x xs ih => simp [scoreLt, ih]

theorem scoreLt_trans {a b c : List Nat} (h1 : scoreLt a b = true)
    (h2 : scoreLt b c = true) : scoreLt a c = true := by
  induction a generalizing b c with
  | nil =>
    cases c with
    | nil =>
      cases b with
      | nil => exact h1
      | cons y ys => simp [scoreLt] at h2
    | cons z zs => rfl
  | cons x xs ih =>
    cases b with
    | nil => simp [scoreLt] at h1
    | cons y ys =>
      cases c with
      | nil => simp [scoreLt] at h2
      | cons z zs =>
        simp only [scoreLt] at h1 h2 ⊢
        by_cases hxy : x < y
        · by_cases hyz : y < z
          · simp [show x < z by omega]
          · by_cases hzy : z < y
            · simp [hyz, hzy] at h2
            · simp [show x < z by omega]
        · by_cases hyx : y < x
          · simp [hxy, hyx] at h1
          · have hxyeq : x = y := by omega
            subst hxyeq
            simp only [if_neg hxy, if_neg hyx] at h1
            by_cases hxz : x < z
            · simp [hxz]
            · by_cases hzx : z < x
              · simp [hxz, hzx] at h2
              · simp only [if_neg hxz, if_neg hzx] at h2 ⊢
                exact ih h1 h2

theorem scoreLt_eq_of_not {a b : List Nat} (h1 : scoreLt a b = false)
    (h2 : scoreLt b a = false) : a = b := by
  induction a generalizing b with
  | nil =>
    cases b with
    | nil => rfl
    | cons y ys => simp [scoreLt] at h1
  | cons x xs ih =>
    cases b with
    | nil => simp [scoreLt] at h2
    | cons y ys =>
      simp only [scoreLt] at h1 h2
      by_cases hxy : x < y
      · simp [hxy] at h1
      · by_cases hyx : y < x
        · simp [hxy, hyx] at h2
        · have hxyeq : x = y := by omega
          subst hxyeq
          simp only [if_neg hxy, if_neg hyx] at h1 h2
          rw [ih h1 h2]

theorem scoreLt_asymm {a b : List Nat} (h : scoreLt a b = true) : scoreLt b a = false := by
  cases hh : scoreLt b a
  · rfl
  · have := scoreLt_trans h hh
    rw [scoreLt_irrefl] at this
    exact absurd this (by simp)

theorem scoreLt_not_of_not {a b c : List Nat} (h1 : scoreLt a b = false)
    (h2 : scoreLt b c = false) : scoreLt a c = false := by
  cases hac : scoreLt a c
  · rfl
  · exfalso
    by_cases hba : scoreLt b a = true
    · have := scoreLt_trans hba hac
      rw [this] at h2
      exact absurd h2 (by simp)
    · have hba' : scoreLt b a = false := by
        cases hh : scoreLt b a
        · rfl
        · exact absurd hh hba
      have : a = b := scoreLt_eq_of_not h1 hba'
      subst this
      rw [hac] at h2
      exact absurd h2 (by simp)


theorem scoreLt_of_le_of_lt {a b c : List Nat} (h1 : scoreLt a b = false)
    (h2 : scoreLt a c = true) : scoreLt b c = true := by
  cases hba : scoreLt b a
  · rw [← scoreLt_eq_of_not h1 hba]
    exact h2
  · exact scoreLt_trans hba h2

theorem combinations_length {α : Type} (n : Nat) (l : List α) :
    (combinations n l).length = Nat.choose l.length n := by
  induction l generalizing n with
  | nil => cases n <;> simp [combinations]
  | cons x xs ih =>
    cases n with
    | zero => simp [combinations]
    | succ m =>
      simp only [combinations, List.length_append, List.length_map, ih,
        List.length_cons]
      rw [Nat.choose_succ_succ]

theorem combinations_eq_nil {α : Type} {n : Nat} {l : List α}
    (h : l.length < n) : combinations n l = [] := by
  have := combinations_length n l
  have hz : Nat.choose l.length n = 0 := Nat.choose_eq_zero_of_lt h
  rw [hz] at this
  exact List.eq_nil_of_length_eq_zero this

theorem combinations_self {α : Type} (l : List α) :
    combinations l.length l = [l] := by
  induction l with
  | nil => rfl
  | cons x xs ih =>
    show combinations (xs.length + 1) (x :: xs) = [x :: xs]
    rw [combinations, ih, combinations_eq_nil (show xs.length < xs.length + 1 by omega)]
    rfl

theorem mem_combinations_sublist {α : Type} {n : Nat} {l c : List α}
    (h : c ∈ combinations n l) : c.Sublist l := by
  induction l generalizing n c with
  | nil =>
    cases n with
    | zero =>
      simp [combinations] at h
      subst h
      exact List.Sublist.refl _
    | succ m => simp [combinations] at h
  | cons x xs ih =>
    cases n with
    | zero =>
      simp [combinations] at h
      subst h
      exact List.nil_sublist _
    | succ m =>
      rw [combinations, List.mem_append] at h
      rcases h with h | h
      · rcases List.mem_map.mp h with ⟨c', hc', rfl⟩
        exact (ih hc').cons₂ x
      · exact (ih h).cons x

theorem mem_combinations_length {α : Type} {n : Nat} {l c : List α}
    (h : c ∈ combinations n l) : c.length = n := by
  induction l generalizing n c with
  | nil =>
    cases n with
    | zero =>
      simp [combinations] at h
      subst h
      rfl
    | succ m => simp [combinations] at h
  | cons x xs ih =>
    cases n with
    | zero =>
      simp [combinations] at h
      subst h
      rfl
    | succ m =>
      rw [combinations, List.mem_append] at h
      rcases h with h | h
      · rcases List.mem_map.mp h with ⟨c', hc', rfl⟩
        simp [ih hc']
      · exact ih h

theorem pickMax_fold_spec {β : Type} (k : β → List Nat) (ys : List β) (b0 : β) :
    ∃ b, ys.foldl (pickMax k) (some b0) = some b ∧
      (∀ y ∈ b0 :: ys, scoreLt (k b) (k y) = false) ∧
      ∃ pre post, b0 :: ys = pre ++ b :: post ∧
        ∀ y ∈ pre, scoreLt (k y) (k b) = true := by
  induction ys generalizing b0 with
  | nil =>
    refine ⟨b0, rfl, ?_, [], [], rfl, by simp⟩
    intro y hy
    rcases List.mem_cons.mp hy with rfl | hy'
    · exact scoreLt_irrefl _
    · simp at hy'
  | cons y ys ih =>
    by_cases hlt : scoreLt (k b0) (k y) = true
    · have hstep : pickMax k (some b0) y = some y := by simp [pickMax, hlt]
      obtain ⟨b, hfold, hmax, pre, post, hdec, hpre⟩ := ih y
      refine ⟨b, ?_, ?_, ?_⟩
      · show (y :: ys).foldl (pickMax k) (some b0) = some b
        rw [List.foldl_cons, hstep]
        exact hfold
      · intro z hz
        rcases List.mem_cons.mp hz with rfl | hz'
        · have hby : scoreLt (k b) (k y) = false := hmax y (by simp)
          cases hbz : scoreLt (k b) (k z)
          · rfl
          · exfalso
            have := scoreLt_trans hbz hlt
            rw [this] at hby
            exact absurd hby (by simp)
        · exact hmax z hz'
      · refine ⟨b0 :: pre, post, by rw [List.cons_append, ← hdec], ?_⟩
        intro z hz
        rcases List.mem_cons.mp hz with rfl | hz'
        · cases pre with
          | nil =>
            have hb : y = b := by
              have := hdec
              simp at this
              exact this.1
            rw [← hb]
            exact hlt
          | cons p ps =>
            have hp : p = y := by
              have := hdec
              simp at this
              exact this.1.symm
            have hyb : scoreLt (k y) (k b) = true := by
              rw [← hp]
              exact hpre p (by simp)
            exact scoreLt_trans hlt hyb
        · exact hpre z hz'
    · have hlt' : scoreLt (k b0) (k y) = false := by
        cases hh : scoreLt (k b0) (k y)
        · rfl
        · exact absurd hh hlt
      have hstep : pickMax k (some b0) y = some b0 := by simp [pickMax, hlt']
      obtain ⟨b, hfold, hmax, pre, post, hdec, hpre⟩ := ih b0
      refine ⟨b, ?_, ?_, ?_⟩
      · show (y :: ys).foldl (pickMax k) (some b0) = some b
        rw [List.foldl_cons, hstep]
        exact hfold
      · intro z hz
        rcases List.mem_cons.mp hz with rfl | hz'
        · exact hmax z (by simp)
        · rcases List.mem_cons.mp hz' with rfl | hz''
          · have hbb0 : scoreLt (k b) (k b0) = false := hmax b0 (by simp)
            exact scoreLt_not_of_not hbb0 hlt'
          · exact hmax z (List.mem_cons.mpr (Or.inr hz''))
      · cases pre with
        | nil =>
          have hb : b0 = b := by
            have := hdec
            simp at this
            exact this.1
          refine ⟨[], y :: ys, ?_, by simp⟩
          rw [← hb]
          rfl
        | cons p ps =>
          have hp : p = b0 := by
            have := hdec
            simp at this
            exact this.1.symm
          have hys : ys = ps ++ b :: post := by
            have := hdec
            simp at this
            exact this.2
          refine ⟨b0 :: y :: ps, post, by rw [hys]; rfl, ?_⟩
          intro z hz
          have hb0b : scoreLt (k b0) (k b) = true := by
            rw [← hp]
            exact hpre p (by simp)
          rcases List.mem_cons.mp hz with rfl | hz'
          · exact hb0b
          · rcases List.mem_cons.mp hz' with rfl | hz''
            · exact scoreLt_of_le_of_lt hlt' hb0b
            · exact hpre z (List.mem_cons.mpr (Or.inr hz''))


theorem evaluateFive_cards (cs : List Card) : (evaluateFive cs).cards = cs := by
  unfold evaluateFive
  dsimp only
  split_ifs <;> rfl

theorem evaluate_spec (l : List Card) (h : 5 ≤ l.length) :
    ∃ b, evaluate l = .ok b ∧
      (∀ c ∈ combinations 5 l, scoreLt b.score (evaluateFive c).score = false) ∧
      (∃ pre post, (combinations 5 l).map evaluateFive = pre ++ b :: post ∧
        ∀ e ∈ pre, scoreLt e.score b.score = true) ∧
      ∃ c, c ∈ combinations 5 l ∧ b = evaluateFive c := by
  by_cases h5 : l.length = 5
  · have hcomb : combinations 5 l = [l] := by
      rw [← h5]
      exact combinations_self l
    refine ⟨evaluateFive l, ?_, ?_, ?_, ?_⟩
    · simp [evaluate, h5]
    · intro c hc
      rw [hcomb] at hc
      simp at hc
      subst hc
      exact scoreLt_irrefl _
    · exact ⟨[], [], by rw [hcomb]; rfl, by simp⟩
    · exact ⟨l, by rw [hcomb]; simp, rfl⟩
  · have h6 : 5 < l.length := by omega
    have hlenpos : 0 < (combinations 5 l).length := by
      rw [combinations_length]
      exact Nat.choose_pos (by omega)
    obtain ⟨c0, cs, hcs⟩ : ∃ c0 cs, combinations 5 l = c0 :: cs := by
      cases hc : combinations 5 l with
      | nil => rw [hc] at hlenpos; simp at hlenpos
      | cons c0 cs => exact ⟨c0, cs, rfl⟩
    have hmap : (combinations 5 l).map evaluateFive =
        evaluateFive c0 :: cs.map evaluateFive := by rw [hcs]; rfl
    obtain ⟨b, hfold, hmax, pre, post, hdec, hpre⟩ :=
      pickMax_fold_spec EvaluatedHand.score (cs.map evaluateFive) (evaluateFive c0)
    have heval : evaluate l = .ok b := by
      unfold evaluate
      rw [if_neg (by omega), if_neg (by simp; omega), hmap]
      rw [List.foldl_cons]
      show (match (cs.map evaluateFive).foldl (pickMax EvaluatedHand.score)
          (pickMax EvaluatedHand.score none (evaluateFive c0)) with
        | some b => Except.ok b
        | none => Except.error "no combination") = Except.ok b
      rw [show pickMax EvaluatedHand.score none (evaluateFive c0) =
        some (evaluateFive c0) from rfl, hfold]
    refine ⟨b, heval, ?_, ?_, ?_⟩
    · intro c hc
      have : evaluateFive c ∈ evaluateFive c0 :: cs.map evaluateFive := by
        rw [← hmap]
        exact List.mem_map_of_mem evaluateFive hc
      exact hmax _ this
    · exact ⟨pre, post, by rw [hmap, hdec], hpre⟩
    · have hb : b ∈ (combinations 5 l).map evaluateFive := by
        rw [hmap, hdec]
        exact List.mem_append.mpr (Or.inr (by simp))
      rcases List.mem_map.mp hb with ⟨c, hc, hbc⟩
      exact ⟨c, hc, hbc.symm⟩


/-- C3 (amended): for every list of 6 or 7 distinct cards, evaluate
returns an EvaluatedHand whose ordering key is maximal among the keys of
all 5-card subsets — 6 or 21 of them, not 15 or 21 as stated — whose cards
field is one of those subsets (length exactly 5, a sublist of the input),
and which is the evaluation of the first maximal subset in the
itertools.combinations enumeration order. -/
theorem c3_best_of_six_or_seven (l : List Card)
    (hlen : l.length = 6 ∨ l.length = 7) (_hnd : l.Nodup) :
    ∃ b, evaluate l = .ok b ∧
      b.cards ∈ combinations 5 l ∧
      b.cards.length = 5 ∧
      b.cards.Sublist l ∧
      b = evaluateFive b.cards ∧
      (∀ c ∈ combinations 5 l, scoreLt b.score (evaluateFive c).score = false) ∧
      (∃ pre post, (combinations 5 l).map evaluateFive = pre ++ b :: post ∧
        ∀ e ∈ pre, scoreLt e.score b.score = true) ∧
      ((combinations 5 l).length = 6 ∨ (combinations 5 l).length = 21) := by
  obtain ⟨b, hok, hmax, hfirst, c, hc, hbc⟩ :=
    evaluate_spec l (by rcases hlen with h | h <;> omega)
  have hcards : b.cards = c := by
    rw [hbc]
    exact evaluateFive_cards c
  refine ⟨b, hok, ?_, ?_, ?_, ?_, hmax, hfirst, ?_⟩
  · rw [hcards]
    exact hc
  · rw [hcards]
    exact mem_combinations_length hc
  · rw [hcards]
    exact mem_combinations_sublist hc
  · rw [hcards]
    exact hbc
  · rw [combinations_length]
    rcases hlen with h | h <;> rw [h]
    · left
      rfl
    · right
      rfl

/-- C10: evaluate imposes no upper bound on hand size: every list of at
least 5 cards (including more than 7) evaluates without error to the best
5-card subset by the score ordering, and the only rejected inputs are
those with fewer than 5 cards. -/
theorem c10_no_size_cap (l : List Card) (h : 5 ≤ l.length) :
    (∃ b, evaluate l = .ok b ∧ b.cards ∈ combinations 5 l ∧
      b.cards.length = 5 ∧ b.cards.Sublist l ∧
      ∀ c ∈ combinations 5 l, scoreLt b.score (evaluateFive c).score = false) ∧
    (∀ l2 : List Card, l2.length < 5 → ∃ e, evaluate l2 = .error e) := by
  constructor
  · obtain ⟨b, hok, hmax, -, c, hc, hbc⟩ := evaluate_spec l h
    have hcards : b.cards = c := by
      rw [hbc]
      exact evaluateFive_cards c
    refine ⟨b, hok, ?_, ?_, ?_, hmax⟩
    · rw [hcards]
      exact hc
    · rw [hcards]
      exact mem_combinations_length hc
    · rw [hcards]
      exact mem_combinations_sublist hc
  · intro l2 h2
    refine ⟨"ValueError: need at least 5 cards", ?_⟩
    unfold evaluate
    rw [if_pos h2]

/-- C4: compare_hands on lists of at least 5 cards returns a value in
{1, -1, 0} determined by the lexicographic comparison of the evaluated
score keys, satisfies compare(a,b) = -compare(b,a), and the induced order
is transitive: nonnegative on (a,b) and (b,c) forces nonnegative on
(a,c). -/
theorem c4_compare_hands_order (a b c : List Card)
    (ha : 5 ≤ a.length) (hb : 5 ≤ b.length) (hc : 5 ≤ c.length) :
    ∃ u v w : Int, compare_hands a b = .ok u ∧ compare_hands b a = .ok v ∧
      compare_hands a c = .ok w ∧
      (u = 1 ∨ u = -1 ∨ u = 0) ∧ v = -u ∧
      (∀ t : Int, compare_hands b c = .ok t → 0 ≤ u → 0 ≤ t → 0 ≤ w) ∧
      (∃ ea eb, evaluate a = .ok ea ∧ evaluate b = .ok eb ∧
        u = if scoreLt eb.score ea.score then 1
            else if scoreLt ea.score eb.score then -1 else 0) := by
  obtain ⟨ea, hea, -, -, -⟩ := evaluate_spec a ha
  obtain ⟨eb, heb, -, -, -⟩ := evaluate_spec b hb
  obtain ⟨ec, hec, -, -, -⟩ := evaluate_spec c hc
  have hab : compare_hands a b = .ok (if scoreLt eb.score ea.score then 1
      else if scoreLt ea.score eb.score then -1 else 0) := by
    unfold compare_hands
    rw [hea, heb]
    dsimp only
    split_ifs <;> rfl
  have hba : compare_hands b a = .ok (if scoreLt ea.score eb.score then 1
      else if scoreLt eb.score ea.score then -1 else 0) := by
    unfold compare_hands
    rw [heb, hea]
    dsimp only
    split_ifs <;> rfl
  have hac : compare_hands a c = .ok (if scoreLt ec.score ea.score then 1
      else if scoreLt ea.score ec.score then -1 else 0) := by
    unfold compare_hands
    rw [hea, hec]
    dsimp only
    split_ifs <;> rfl
  have hbc : compare_hands b c = .ok (if scoreLt ec.score eb.score then 1
      else if scoreLt eb.score ec.score then -1 else 0) := by
    unfold compare_hands
    rw [heb, hec]
    dsimp only
    split_ifs <;> rfl
  refine ⟨_, _, _, hab, hba, hac, ?_, ?_, ?_, ea, eb, hea, heb, rfl⟩
  · split_ifs <;> simp
  · by_cases h1 : scoreLt eb.score ea.score = true
    · have h2 := scoreLt_asymm h1
      simp [h1, h2]
    · simp only [Bool.not_eq_true] at h1
      by_cases h2 : scoreLt ea.score eb.score = true
      · simp [h1, h2]
      · simp only [Bool.not_eq_true] at h2
        simp [h1, h2]
  · intro t hbc2 hu ht
    rw [hbc] at hbc2
    have hteq : (if scoreLt ec.score eb.score then (1 : Int)
        else if scoreLt eb.score ec.score then -1 else 0) = t := by
      exact Except.ok.inj hbc2
    have haeb : scoreLt ea.score eb.score = false := by
      cases hh : scoreLt ea.score eb.score
      · rfl
      · exfalso
        have hba' := scoreLt_asymm hh
        rw [hh, hba'] at hu
        simp at hu
    have hbec : scoreLt eb.score ec.score = false := by
      cases hh : scoreLt eb.score ec.score
      · rfl
      · exfalso
        have hcb' := scoreLt_asymm hh
        rw [hh, hcb'] at hteq
        rw [← hteq] at ht
        simp at ht
    have haec : scoreLt ea.score ec.score = false :=
      scoreLt_not_of_not haeb hbec
    rw [haec]
    split_ifs <;> simp_all


/-- Witness for C3 at the concrete six-card input. -/
theorem c3_witness :
    (sixCards.length = 6 ∨ sixCards.length = 7) ∧ sixCards.Nodup ∧
    (∃ b, evaluate sixCards = .ok b ∧
      b.cards ∈ combinations 5 sixCards ∧
      b.cards.length = 5 ∧
      b.cards.Sublist sixCards ∧
      b = evaluateFive b.cards ∧
      (∀ c ∈ combinations 5 sixCards, scoreLt b.score (evaluateFive c).score = false) ∧
      (∃ pre post, (combinations 5 sixCards).map evaluateFive = pre ++ b :: post ∧
        ∀ e ∈ pre, scoreLt e.score b.score = true) ∧
      ((combinations 5 sixCards).length = 6 ∨ (combinations 5 sixCards).length = 21)) :=
  ⟨Or.inl (by decide), by decide,
    c3_best_of_six_or_seven sixCards (Or.inl (by decide)) (by decide)⟩

/-- Witness for C10 at a concrete nine-card input, beyond the spec's 5..7
domain. -/
theorem c10_witness :
    5 ≤ nineCards.length ∧
    ((∃ b, evaluate nineCards = .ok b ∧ b.cards ∈ combinations 5 nineCards ∧
      b.cards.length = 5 ∧ b.cards.Sublist nineCards ∧
      ∀ c ∈ combinations 5 nineCards, scoreLt b.score (evaluateFive c).score = false) ∧
    (∀ l2 : List Card, l2.length < 5 → ∃ e, evaluate l2 = .error e)) :=
  ⟨by decide, c10_no_size_cap nineCards (by decide)⟩

/-- Witness for C4 at three concrete hands. -/
theorem c4_witness :
    5 ≤ wheelHand.length ∧ 5 ≤ pairHand.length ∧ 5 ≤ sixCards.length ∧
    (∃ u v w : Int, compare_hands wheelHand pairHand = .ok u ∧
      compare_hands pairHand wheelHand = .ok v ∧
      compare_hands wheelHand sixCards = .ok w ∧
      (u = 1 ∨ u = -1 ∨ u = 0) ∧ v = -u ∧
      (∀ t : Int, compare_hands pairHand sixCards = .ok t → 0 ≤ u → 0 ≤ t → 0 ≤ w) ∧
      (∃ ea eb, evaluate wheelHand = .ok ea ∧ evaluate pairHand = .ok eb ∧
        u = if scoreLt eb.score ea.score then 1
            else if scoreLt ea.score eb.score then -1 else 0)) :=
  ⟨by decide, by decide, by decide,
    c4_compare_hands_order wheelHand pairHand sixCards (by decide) (by decide) (by decide)⟩


theorem calcNewDifficulty_bounds (s : Score) (h1 : 1 ≤ s.currentDifficulty)
    (h5 : s.currentDifficulty ≤ 5) :
    1 ≤ calcNewDifficulty s ∧ calcNewDifficulty s ≤ 5 := by
  unfold calcNewDifficulty
  split_ifs <;> omega

/-- C5: the difficulty transition rule holds on every recorded attempt:
with the counters updated (total+1, correct incremented on a correct
answer, streak incremented or reset), the new difficulty is unchanged
below 5 total attempts, min(old+1,5) when accuracy ≥ 80 or streak ≥ 5,
max(old-1,1) when accuracy < 50, else unchanged, with accuracy computed as
correct/total*100. -/
theorem c5_difficulty_transition (s : Score) (b : Bool) :
    (recordAttempt b s).totalAttempts = s.totalAttempts + 1 ∧
    (recordAttempt b s).correctAttempts = s.correctAttempts + (if b then 1 else 0) ∧
    (recordAttempt b s).currentStreak = (if b then s.currentStreak + 1 else 0) ∧
    (recordAttempt b s).currentDifficulty =
      (if s.totalAttempts + 1 < 5 then s.currentDifficulty
       else if ((s.correctAttempts + (if b then 1 else 0) : ℚ) /
           ((s.totalAttempts + 1 : Nat) : ℚ) * 100 ≥ 80) ∨
           5 ≤ (if b then s.currentStreak + 1 else 0) then
         min (s.currentDifficulty + 1) 5
       else if ((s.correctAttempts + (if b then 1 else 0) : ℚ) /
           ((s.totalAttempts + 1 : Nat) : ℚ) * 100 < 50) then
         max (s.currentDifficulty - 1) 1
       else s.currentDifficulty) := by
  cases b <;>
    simp [recordAttempt, calcNewDifficulty, Score.accuracy, Nat.succ_ne_zero,
      Nat.cast_add, Nat.cast_one]

/-- C6: starting from the creation state (all counters 0, difficulty 1,
which satisfies the invariant), every record_attempt transition preserves
correctAttempts ≤ totalAttempts, currentStreak ≤ bestStreak and
currentDifficulty ∈ [1,5] (the counters are nonnegative `Nat`s); an
incorrect answer resets currentStreak to 0 and leaves bestStreak
untouched. -/
theorem c6_invariants_preserved (s : Score) (b : Bool) (h : ScoreInv s) :
    ScoreInv createScore ∧ ScoreInv (recordAttempt b s) ∧
    (recordAttempt false s).currentStreak = 0 ∧
    (recordAttempt false s).bestStreak = s.bestStreak := by
  obtain ⟨hc, hs, hd1, hd5⟩ := h
  refine ⟨by decide, ?_, rfl, rfl⟩
  cases b
  · have hb := calcNewDifficulty_bounds
      { s with totalAttempts := s.totalAttempts + 1, currentStreak := 0 } hd1 hd5
    show s.correctAttempts ≤ s.totalAttempts + 1 ∧ 0 ≤ s.bestStreak ∧
      1 ≤ calcNewDifficulty
        { s with totalAttempts := s.totalAttempts + 1, currentStreak := 0 } ∧
      calcNewDifficulty
        { s with totalAttempts := s.totalAttempts + 1, currentStreak := 0 } ≤ 5
    exact ⟨by omega, by omega, hb.1, hb.2⟩
  · have hb := calcNewDifficulty_bounds
      { s with
          totalAttempts := s.totalAttempts + 1
          correctAttempts := s.correctAttempts + 1
          currentStreak := s.currentStreak + 1
          bestStreak := if s.bestStreak < s.currentStreak + 1 then
            s.currentStreak + 1 else s.bestStreak } hd1 hd5
    show s.correctAttempts + 1 ≤ s.totalAttempts + 1 ∧
      (s.currentStreak + 1 ≤ if s.bestStreak < s.currentStreak + 1 then
        s.currentStreak + 1 else s.bestStreak) ∧
      1 ≤ calcNewDifficulty
        { s with
            totalAttempts := s.totalAttempts + 1
            correctAttempts := s.correctAttempts + 1
            currentStreak := s.currentStreak + 1
            bestStreak := if s.bestStreak < s.currentStreak + 1 then
              s.currentStreak + 1 else s.bestStreak } ∧
      calcNewDifficulty
        { s with
            totalAttempts := s.totalAttempts + 1
            correctAttempts := s.correctAttempts + 1
            currentStreak := s.currentStreak + 1
            bestStreak := if s.bestStreak < s.currentStreak + 1 then
              s.currentStreak + 1 else s.bestStreak } ≤ 5
    refine ⟨by omega, ?_, hb.1, hb.2⟩
    split_ifs <;> omega


/-- Witness for C6 at the creation state. -/
theorem c6_witness :
    ScoreInv createScore ∧
    (ScoreInv createScore ∧ ScoreInv (recordAttempt false createScore) ∧
     (recordAttempt false createScore).currentStreak = 0 ∧
     (recordAttempt false createScore).bestStreak = createScore.bestStreak) :=
  ⟨by decide, c6_invariants_preserved createScore false (by decide)⟩


theorem weakestFold_spec (xs : List TopicScore) : ∀ (o : Option String) (lo : ℚ),
    (xs.foldl weakestStep (o, lo)).2 ≤ lo ∧
    (∀ s ∈ xs, 3 ≤ s.totalAttempts → (xs.foldl weakestStep (o, lo)).2 ≤ s.accuracy) ∧
    (xs.foldl weakestStep (o, lo) = (o, lo) ∨
      ∃ s ∈ xs, (xs.foldl weakestStep (o, lo)).1 = some s.topic ∧
        (xs.foldl weakestStep (o, lo)).2 = s.accuracy ∧
        3 ≤ s.totalAttempts ∧ s.accuracy < lo) := by
  induction xs with
  | nil =>
    intro o lo
    exact ⟨le_refl _, by simp, Or.inl rfl⟩
  | cons x xs ih =>
    intro o lo
    rw [List.foldl_cons]
    by_cases hx : 3 ≤ x.totalAttempts ∧ x.accuracy < lo
    · have hstep : weakestStep (o, lo) x = (some x.topic, x.accuracy) := by
        simp [weakestStep, hx]
      rw [hstep]
      obtain ⟨h1, h2, h3⟩ := ih (some x.topic) x.accuracy
      refine ⟨h1.trans (le_of_lt hx.2), ?_, ?_⟩
      · intro s hs h3a
        rcases List.mem_cons.mp hs with rfl | hs'
        · exact h1
        · exact h2 s hs' h3a
      · rcases h3 with heq | ⟨s, hs, ha, hb, hc, hd⟩
        · right
          exact ⟨x, by simp, by rw [heq], by rw [heq], hx.1, hx.2⟩
        · right
          exact ⟨s, by simp [hs], ha, hb, hc, lt_trans hd hx.2⟩
    · have hstep : weakestStep (o, lo) x = (o, lo) := by
        simp only [weakestStep, if_neg hx]
      rw [hstep]
      obtain ⟨h1, h2, h3⟩ := ih o lo
      refine ⟨h1, ?_, ?_⟩
      · intro s hs h3a
        rcases List.mem_cons.mp hs with rfl | hs'
        · have hnlt : ¬ s.accuracy < lo := fun hlt => hx ⟨h3a, hlt⟩
          exact h1.trans (not_lt.mp hnlt)
        · exact h2 s hs' h3a
      · rcases h3 with heq | ⟨s, hs, ha, hb, hc, hd⟩
        · exact Or.inl heq
        · exact Or.inr ⟨s, by simp [hs], ha, hb, hc, hd⟩

/-- C9 (amended): whenever some topic has at least 3 attempts AND accuracy
strictly below 100, get_recommended_topic returns such a topic of minimal
accuracy; a topic with at least 3 attempts but exactly 100% accuracy never
qualifies (the loop bound starts at 100 with a strict comparison), and
only when no topic qualifies do the never-attempted / fewest-attempts
fallbacks apply. -/
theorem c9_lowest_accuracy_topic (scores : List TopicScore)
    (h : ∃ s ∈ scores, 3 ≤ s.totalAttempts ∧ s.accuracy < 100) :
    ∃ s ∈ scores, getRecommendedTopic scores = s.topic ∧
      3 ≤ s.totalAttempts ∧ s.accuracy < 100 ∧
      ∀ s2 ∈ scores, 3 ≤ s2.totalAttempts → s.accuracy ≤ s2.accuracy := by
  obtain ⟨s0, hs0, h30, hacc0⟩ := h
  obtain ⟨h1, h2, h3⟩ := weakestFold_spec scores none 100
  rcases h3 with heq | ⟨s, hs, ha, hb, hc, hd⟩
  · exfalso
    have hle := h2 s0 hs0 h30
    rw [heq] at hle
    exact absurd (lt_of_le_of_lt hle hacc0) (lt_irrefl _)
  · refine ⟨s, hs, ?_, hc, hd, ?_⟩
    · have hne : ¬ scores.isEmpty = true := by
        cases scores with
        | nil => simp at hs
        | cons a as => simp
      unfold getRecommendedTopic
      rw [if_neg hne, ha]
    · intro s2 hs2 h32
      have hle := h2 s2 hs2 h32
      rw [hb] at hle
      exact hle

/-- Witness for C9 at a concrete one-topic state with accuracy 25%. -/
theorem c9_witness :
    (∃ s ∈ [(⟨"hand_ranking", 4, 1⟩ : TopicScore)],
      3 ≤ s.totalAttempts ∧ s.accuracy < 100) ∧
    (∃ s ∈ [(⟨"hand_ranking", 4, 1⟩ : TopicScore)],
      getRecommendedTopic [⟨"hand_ranking", 4, 1⟩] = s.topic ∧
      3 ≤ s.totalAttempts ∧ s.accuracy < 100 ∧
      ∀ s2 ∈ [(⟨"hand_ranking", 4, 1⟩ : TopicScore)],
        3 ≤ s2.totalAttempts → s.accuracy ≤ s2.accuracy) := by
  have hh : ∃ s ∈ [(⟨"hand_ranking", 4, 1⟩ : TopicScore)],
      3 ≤ s.totalAttempts ∧ s.accuracy < 100 := by
    refine ⟨⟨"hand_ranking", 4, 1⟩, by simp, by norm_num, ?_⟩
    norm_num [TopicScore.accuracy]
  exact ⟨hh, c9_lowest_accuracy_topic [⟨"hand_ranking", 4, 1⟩] hh⟩


theorem suitFromLetter_isOk (c : Char) :
    (suitFromLetter c).isOk =
      (['h', 'd', 'c', 's'] : List Char).contains c.toLower := by
  unfold suitFromLetter
  have hc : (['h', 'd', 'c', 's'] : List Char).contains c.toLower =
      (decide (c.toLower = 'h') || (decide (c.toLower = 'd') ||
        (decide (c.toLower = 'c') || decide (c.toLower = 's')))) := by
    simp [List.contains_cons]
  rw [hc]
  split_ifs with h1 h2 h3 h4 <;> simp_all [Except.isOk, Except.toBool]

theorem rankFromSymbol_isOk (r : List Char) :
    (rankFromSymbol r).isOk =
      ((isDigitStr (r.map Char.toUpper) &&
        decide (2 ≤ digitsToNat (r.map Char.toUpper)) &&
        decide (digitsToNat (r.map Char.toUpper) ≤ 14)) ||
       (!isDigitStr (r.map Char.toUpper) &&
        (r.map Char.toUpper == ['T'] || r.map Char.toUpper == ['J'] ||
         r.map Char.toUpper == ['Q'] || r.map Char.toUpper == ['K'] ||
         r.map Char.toUpper == ['A']))) := by
  unfold rankFromSymbol mkRank
  dsimp only
  split_ifs with h1 h2 h3 h4 h5 h6 h7 <;> simp_all [Except.isOk, Except.toBool, beq_iff_eq]


/-- C8 (amended): Card.from_string accepts exactly the extended grammar —
length at least 2, last character a suit letter in either case, rank part
(uppercased) an all-digit string with value in 2..14 or one of T/J/Q/K/A —
and in particular every string of the spec §6 grammar parses
successfully; but the acceptance is a strict superset of §6 (see the
counterexample "Th"). -/
theorem c8_parser_accepts_extended_grammar (s : List Char) :
    ((cardFromString s).isOk = extGrammar s) ∧
    (specGrammar s = true → (cardFromString s).isOk = true) := by
  have hmain : (cardFromString s).isOk = extGrammar s := by
    unfold cardFromString extGrammar
    by_cases hlen : s.length < 2
    · rw [if_pos hlen]
      have hd : decide (2 ≤ s.length) = false := by
        simp only [decide_eq_false_iff_not, not_le]
        omega
      rw [hd]
      simp [Except.isOk, Except.toBool]
    · rw [if_neg hlen]
      have hd : decide (2 ≤ s.length) = true := by
        simp only [decide_eq_true_eq]
        omega
      rw [hd]
      dsimp only
      cases hr : rankFromSymbol s.dropLast with
      | error e =>
        have hro := rankFromSymbol_isOk s.dropLast
        rw [hr] at hro
        simp only [Except.isOk, Except.toBool] at hro ⊢
        rw [← hro]
        simp
      | ok r =>
        have hro := rankFromSymbol_isOk s.dropLast
        rw [hr] at hro
        simp only [Except.isOk, Except.toBool] at hro
        cases hsu : suitFromLetter (s.getLastD ' ') with
        | error e =>
          have hso := suitFromLetter_isOk (s.getLastD ' ')
          rw [hsu] at hso
          simp only [Except.isOk, Except.toBool] at hso
          simp only [Except.isOk, Except.toBool]
          rw [← hro, ← hso]
          simp
        | ok st =>
          have hso := suitFromLetter_isOk (s.getLastD ' ')
          rw [hsu] at hso
          simp only [Except.isOk, Except.toBool] at hso
          simp only [Except.isOk, Except.toBool]
          rw [← hro, ← hso]
          simp
  refine ⟨hmain, ?_⟩
  intro hspec
  rw [hmain]
  simp only [specGrammar, List.any_eq_true, beq_iff_eq] at hspec
  obtain ⟨rt, hrt, st2, hst2, rfl⟩ := hspec
  simp only [specRankTokens] at hrt
  unfold extGrammar
  rw [List.dropLast_concat, List.getLastD_concat]
  fin_cases hrt <;> fin_cases hst2 <;> decide


/-- Witness for C8: the grammar string "10h" parses successfully. -/
theorem c8_witness :
    specGrammar "10h".data = true ∧ (cardFromString "10h".data).isOk = true :=
  ⟨by decide, (c8_parser_accepts_extended_grammar "10h".data).2 (by decide)⟩

end PokerApp



